import Mathlib

/-!
Shallow embedding of `train_helper.py` (repository `lianqiann/vsl`) and
proofs about its specification.  Floating-point values are modelled as
rationals, numpy integer arrays as lists of integers, and the parts of the
runtime state the code touches (filesystem, pickled files) as explicit
parameters.
-/

namespace VSL

/-! ### Dictionaries (Python `dict` with string keys and rational values) -/

/-- Python `d.get(k, default)`: value of the first binding of `k`, or the
default when `k` is absent. -/
def dictGet : List (String × ℚ) → String → ℚ → ℚ
  | [], _, default => default
  | p :: rest, k, default =>
    if p.1 == k then p.2 else dictGet rest k default

/-- Python `d[k] += v`: add `v` to the binding of `k`; `none` models the
`KeyError` raised when `k` is absent. -/
def dictAdd (d : List (String × ℚ)) (k : String) (v : ℚ) :
    Option (List (String × ℚ)) :=
  if d.any (fun p => p.1 == k) then
    some (d.map (fun p => if p.1 == k then (p.1, p.2 + v) else p))
  else
    none

/-! ### `tracker` (train_helper.py lines 30-69) -/

/-- State of a `tracker` object: the constructor argument `names`, the
`values` dict and the scalar `counter`. -/
structure Tracker where
  names : List String
  values : List (String × ℚ)
  counter : ℚ
  deriving Repr

/-- `tracker.__init__` / `tracker.reset`: `values = {name: 0. for name in
names}`, `counter = 0`.  The constructor asserts `len(names) > 0`, modelled
by `none` on an empty list. -/
def tracker.init (names : List String) : Option Tracker :=
  if names.length > 0 then
    some { names := names
           values := names.map (fun n => (n, (0 : ℚ)))
           counter := 0 }
  else
    none

/-- `tracker.__getitem__`: `values.get(name, 0) / counter if counter else 0`. -/
def Tracker.getitem (t : Tracker) (name : String) : ℚ :=
  if t.counter ≠ 0 then dictGet t.values name 0 / t.counter else 0

/-- `tracker.__len__`: `len(names)`. -/
def Tracker.len (t : Tracker) : Nat := t.names.length

/-- `tracker.update`: `counter += count`, then `values[name] += value *
count` for each item of `named_values`; `none` models a `KeyError` on an
unknown name. -/
def Tracker.update (t : Tracker) (named_values : List (String × ℚ))
    (count : ℚ) : Option Tracker := do
  let vals ← named_values.foldlM
    (fun d p => dictAdd d p.1 (p.2 * count)) t.values
  pure { t with values := vals, counter := t.counter + count }

/-- A finite sequence of `update` calls applied in order. -/
def Tracker.runUpdates (t : Tracker)
    (calls : List (List (String × ℚ) × ℚ)) : Option Tracker :=
  calls.foldlM (fun t c => t.update c.1 c.2) t

/-! ### `prior_buffer` (train_helper.py lines 165-220) -/

/-- A numpy 2-D float array: a list of rows, each a list of rationals. -/
abbrev Mat := List (List ℚ)

/-- The content of a `prior_buffer`: one 2-D array per slot. -/
abbrev Buf := List Mat

/-- Pickled form of one array: row count, column count, row-major data. -/
abbrev SerMat := Nat × Nat × List ℚ

/-- A filesystem of pickled buffer files: path to serialized content. -/
abbrev PickleFS := String → Option (List SerMat)

/-- Serialization of one 2-D array, as `pickle.dump` records it. -/
def serMat (m : Mat) : SerMat := (m.length, (m.headD []).length, m.flatten)

/-- Rebuild `rows` rows of `cols` entries each from row-major data. -/
def splitRows : Nat → Nat → List ℚ → Mat
  | 0, _, _ => []
  | r + 1, c, data => data.take c :: splitRows r c (data.drop c)

/-- Deserialization of one pickled 2-D array. -/
def deserMat (s : SerMat) : Mat := splitRows s.1 s.2.1 s.2.2

/-- Pickling of a whole buffer. -/
def serBuf (b : Buf) : List SerMat := b.map serMat

/-- Unpickling of a whole buffer. -/
def deserBuf (s : List SerMat) : Buf := s.map deserMat

/-- A 2-D array is rectangular: every row has the width of the first row.
Every array numpy produces satisfies this. -/
def Rectangular (m : Mat) : Prop :=
  ∀ row ∈ m, row.length = (m.headD []).length

instance (m : Mat) : Decidable (Rectangular m) := by
  unfold Rectangular; infer_instance

/-- State of a `prior_buffer` object. -/
structure PriorBuffer where
  dim : Nat
  freq : Nat
  path : Option String
  buffer : Buf
  count : List Nat
  deriving Repr

/-- The derived file path: `os.path.join(init_path, name + "_" + str(dim))`
when `init_path` is not `None`, else `None`. -/
def priorPath (init_path : Option String) (name : String) (dim : Nat) :
    Option String :=
  init_path.map (fun ip => ip ++ "/" ++ name ++ "_" ++ toString dim)

/-- `prior_buffer.load`: unpickle `self.path`; `.error` models the
`FileNotFoundError` / `TypeError` when the path is missing or `None`. -/
def prior_buffer.loadFrom (path : Option String) (fs : PickleFS) :
    Except String Buf :=
  match path with
  | none => .error "open(None)"
  | some p =>
    match fs p with
    | none => .error "file not found"
    | some s => .ok (deserBuf s)

/-- The fresh zero initialization `np.asarray([np.zeros((len(r), dim))
for r in inputs])`. -/
def zeroBuf (inputs : List Nat) (dim : Nat) : Buf :=
  inputs.map (fun r => List.replicate r (List.replicate dim (0 : ℚ)))

/-- `prior_buffer.__init__`.  `inputs` is abstracted by the lengths of its
rows (`len(r)` is all the code reads).  The branch structure mirrors the
source: the zero branch fires when the path is `None` or not a file, the
load branch when the path is a file, and the final `raise ValueError` is
kept as the `.error` case. -/
def prior_buffer.init (inputs : List Nat) (dim freq : Nat) (name : String)
    (init_path : Option String) (fs : PickleFS) :
    Except String PriorBuffer := do
  let path := priorPath init_path name dim
  let isfile : Bool := match path with
    | none => false
    | some p => (fs p).isSome
  let buffer ←
    if path.isNone || !isfile then
      .ok (zeroBuf inputs dim)
    else if path.isSome && isfile then
      prior_buffer.loadFrom path fs
    else
      .error ("invalid initial path for prior buffer: " ++
        (init_path.getD "None"))
  pure { dim := dim, freq := freq, path := path, buffer := buffer,
         count := List.replicate inputs.length 0 }

/-- Body of the loop in `prior_buffer.update_buffer` for one `(p, i, l)`
triple: `new_i = i % len(self)`, refresh test `count[new_i] % freq == 0`,
the length assertion (modelled by `.error`), the overwrite `buffer[new_i] =
p[:int(l), :]`, and the unconditional `count[new_i] += 1`. -/
def prior_buffer.updateStep (pb : PriorBuffer) (p : Mat) (i l : Nat) :
    Except String PriorBuffer := do
  let new_i := i % pb.buffer.length
  let buffer ←
    if pb.count.getD new_i 0 % pb.freq = 0 then
      if (pb.buffer.getD new_i []).length = l then
        .ok (pb.buffer.set new_i (p.take l))
      else
        .error "AssertionError"
    else
      .ok pb.buffer
  pure { pb with buffer := buffer,
                 count := pb.count.set new_i (pb.count.getD new_i 0 + 1) }

/-- `prior_buffer.update_buffer`: iterate the loop body over
`zip(post, ixs, seq_len)` (which truncates to the shortest argument). -/
def prior_buffer.update_buffer (pb : PriorBuffer) (ixs : List Nat)
    (post : List Mat) (seq_len : List Nat) : Except String PriorBuffer :=
  (post.zip (ixs.zip seq_len)).foldlM
    (fun pb t => prior_buffer.updateStep pb t.1 t.2.1 t.2.2) pb

/-- `prior_buffer.save`: pickle `self.buffer` to `self.path`; the returned
filesystem has the file written. -/
def prior_buffer.save (pb : PriorBuffer) (fs : PickleFS) :
    Except String PickleFS :=
  match pb.path with
  | none => .error "open(None)"
  | some p => .ok (fun q => if q = p then some (serBuf pb.buffer) else fs q)

/-- `prior_buffer.load` on a given filesystem. -/
def prior_buffer.load (pb : PriorBuffer) (fs : PickleFS) :
    Except String Buf :=
  prior_buffer.loadFrom pb.path fs

/-! ### `accuracy_reporter` (train_helper.py lines 223-241) -/

/-- `((pred == label) * mask).sum()`: the sum of the mask entries at
positions where prediction and label agree. -/
def maskedMatchSum (pred label : List ℤ) (mask : List ℚ) : ℚ :=
  (((pred.zip label).zip mask).map
    (fun t => if t.1.1 = t.1.2 then t.2 else 0)).sum

/-- State of an `accuracy_reporter`: the running counts plus the
`self.pred` / `self.label` attributes set by `update` (absent before the
first call). -/
structure AccuracyReporter where
  right_count : ℚ
  instance_count : ℚ
  pred : Option (List ℤ)
  label : Option (List ℤ)
  deriving Repr

/-- `accuracy_reporter.__init__`. -/
def accuracy_reporter.init : AccuracyReporter :=
  { right_count := 0, instance_count := 0, pred := none, label := none }

/-- `accuracy_reporter.update`. -/
def accuracy_reporter.update (r : AccuracyReporter) (pred label : List ℤ)
    (mask : List ℚ) : AccuracyReporter :=
  { right_count := r.right_count + maskedMatchSum pred label mask
    instance_count := r.instance_count + mask.sum
    pred := some pred
    label := some label }

/-- `accuracy_reporter.report`: returns the dict
`{acc, f1: 0., prec: 0., rec: 0.}` (as a 4-tuple) and the scalar `acc`. -/
def accuracy_reporter.report (r : AccuracyReporter) :
    (ℚ × ℚ × ℚ × ℚ) × ℚ :=
  let acc := if r.instance_count ≠ 0 then r.right_count / r.instance_count
             else 0
  ((acc, 0, 0, 0), acc)

/-! ### `f1_reporter` (train_helper.py lines 244-278)

Line 275 of the source reads `self.prec.append(prec))` — an unbalanced
closing parenthesis, which is a `SyntaxError` in Python.  The embedding
below models the evident intent, `self.prec.append(prec)`. -/

/-- Elements of `xs` at the positions where `mask` is nonzero:
`xs[mask != 0]`. -/
def filterMask (xs : List ℤ) (mask : List ℚ) : List ℤ :=
  ((xs.zip mask).filter (fun t => decide (t.2 ≠ 0))).map Prod.fst

/-- sklearn `precision_score` / `recall_score` / `f1_score` with
`average='micro'` on a multiclass problem: all three equal the proportion
of positions where `y_true` and `y_pred` agree (micro TP summed over all
classes over the total count). -/
def microAvg (y_true y_pred : List ℤ) : ℚ :=
  if y_true.length = 0 then 0
  else (((y_true.zip y_pred).filter (fun t => decide (t.1 = t.2))).length : ℚ)
    / (y_true.length : ℚ)

/-- `np.mean` of a list. -/
def listMean (l : List ℚ) : ℚ := l.sum / (l.length : ℚ)

/-- State of an `f1_reporter`: cumulative counts, per-report history lists
`f1`, `prec`, `rec`, and the masked `pred` / `label` of the most recent
`update` (absent before the first call). -/
structure F1Reporter where
  instance_count : ℚ
  right_count : ℚ
  f1 : List ℚ
  prec : List ℚ
  recs : List ℚ
  pred : Option (List ℤ)
  label : Option (List ℤ)
  deriving Repr

/-- `f1_reporter.__init__` (the unused `inv_tag_vocab` argument is
dropped). -/
def f1_reporter.init : F1Reporter :=
  { instance_count := 0, right_count := 0, f1 := [], prec := [], recs := []
    pred := none, label := none }

/-- `f1_reporter.update`: the `flatten()` calls are identities on our
already-flat lists; `right_count += ((label == pred) * mask).sum()`,
`instance_count += mask.sum()`, and `self.pred` / `self.label` are
OVERWRITTEN with the current call's masked-in subsets. -/
def f1_reporter.update (r : F1Reporter) (pred label : List ℤ)
    (mask : List ℚ) : F1Reporter :=
  { r with
    right_count := r.right_count + maskedMatchSum label pred mask
    instance_count := r.instance_count + mask.sum
    pred := some (filterMask pred mask)
    label := some (filterMask label mask) }

/-- `f1_reporter.report`: cumulative `acc`; micro precision / F1 / recall
of the stored (most recent) masked subset; append each to its history
list; return the dict `(acc, mean f1, mean prec, mean rec)`, the `f1`
history, and the post-call state.  `.error` models the `AttributeError`
when `report` runs before any `update`. -/
def f1_reporter.report (r : F1Reporter) :
    Except String (((ℚ × ℚ × ℚ × ℚ) × List ℚ) × F1Reporter) :=
  match r.label, r.pred with
  | some lb, some pd =>
    let acc := if r.instance_count ≠ 0 then r.right_count / r.instance_count
               else 0
    let precv := microAvg lb pd
    let f1v := microAvg lb pd
    let recallv := microAvg lb pd
    let r' := { r with f1 := r.f1 ++ [f1v], recs := r.recs ++ [recallv],
                       prec := r.prec ++ [precv] }
    .ok (((acc, listMean r'.f1, listMean r'.prec, listMean r'.recs),
          r'.f1), r')
  | _, _ => .error "AttributeError"

/-! ### `experiment` (train_helper.py lines 72-106)

The directory identifier is computed from `config.py`'s parser (not part
of this repository's sources); all the claims need is that it is a
deterministic function of the configuration, so the derived directory is
taken as a parameter.  The filesystem is the set of existing
directories. -/

/-- Modelled from the spec: `experiment.experiment_dir` is `"./"` in
debug mode, otherwise `os.path.join` of the experiments prefix and an
identifier derived deterministically from the non-default config entries
(the derivation uses `get_parser` from `config.py`, which is not among
the sources, so the identifier is abstracted as a parameter — identical
configurations yield the identical identifier). -/
def experiment_dir (debug : Bool) (root identifier : String) : String :=
  if debug then "./" else root ++ "/" ++ identifier

/-- `os.makedirs(d, exist_ok=True)`: create `d` if missing, never fail. -/
def mkdirOk (d : String) (dirs : List String) : List String :=
  if d ∈ dirs then dirs else d :: dirs

/-- `experiment.__init__` on a filesystem `dirs`: in non-debug mode,
raise `ValueError("log exists: ...")` if the experiment directory exists,
else create it (`exist_ok=False`); then `_make_misc_dir` creates
`config.prior_file` and `config.vocab_file` with `exist_ok=True`.
Returns the resulting filesystem. -/
def experiment.init (debug : Bool) (expDir priorFile vocabFile : String)
    (dirs : List String) : Except String (List String) := do
  let dirs ←
    if !debug then
      if expDir ∈ dirs then
        .error ("log exists: " ++ expDir)
      else
        .ok (expDir :: dirs)
    else
      .ok dirs
  .ok (mkdirOk vocabFile (mkdirOk priorFile dirs))

/-! ### Auxiliary definitions used by the statements below -/

/-- Total contribution of the entries of `named_values` whose key is `k`
(the value itself when the keys are distinct, as in a Python dict). -/
def sumVals (nv : List (String × ℚ)) (k : String) : ℚ :=
  ((nv.filter (fun p => p.1 == k)).map Prod.snd).sum

/-- A sequence of `accuracy_reporter.update` calls, each a
`(pred, label, mask)` triple, applied in order. -/
def accuracy_reporter.runUpdates (r : AccuracyReporter)
    (calls : List (List ℤ × List ℤ × List ℚ)) : AccuracyReporter :=
  calls.foldl (fun r c => accuracy_reporter.update r c.1 c.2.1 c.2.2) r

/-- Stated from the claim's words, for comparison with the code: the
number of positions where the prediction equals the label AND the mask is
nonzero. -/
def claimedMatchedCount (pred label : List ℤ) (mask : List ℚ) : Nat :=
  (((pred.zip label).zip mask).filter
    (fun t => decide (t.1.1 = t.1.2 ∧ t.2 ≠ 0))).length

/-! ### Lemmas about dictionaries and `tracker` -/

theorem dictGet_cons_pos (p : String × ℚ) (rest : List (String × ℚ))
    (k : String) (c : ℚ) (h : p.1 = k) :
    dictGet (p :: rest) k c = p.2 := by
  simp [dictGet, h]

theorem dictGet_cons_neg (p : String × ℚ) (rest : List (String × ℚ))
    (k : String) (c : ℚ) (h : ¬ p.1 = k) :
    dictGet (p :: rest) k c = dictGet rest k c := by
  simp [dictGet, h]

theorem dictGet_map_add (k k' : String) (v c : ℚ) :
    ∀ d : List (String × ℚ),
    dictGet (d.map fun p => if p.1 == k then (p.1, p.2 + v) else p) k' c =
      if ((d.any fun p => p.1 == k') && (k' == k)) = true then
        dictGet d k' c + v
      else dictGet d k' c := by
  intro d
  induction d with
  | nil => simp [dictGet]
  | cons p rest ih =>
    rw [List.map_cons, List.any_cons]
    simp only [dictGet]
    rw [ih]
    by_cases hpk : p.1 = k
    · by_cases hpk' : p.1 = k'
      · have hk'k : k' = k := by rw [← hpk', hpk]
        simp [hpk, hpk', hk'k]
      · have hk'k : ¬ (k' = k) := fun h => hpk' (by rw [h, hpk])
        have hkk' : ¬ (k = k') := fun h => hk'k h.symm
        simp [hpk, hpk', hk'k, hkk']
    · by_cases hpk' : p.1 = k'
      · have hk'k : ¬ (k' = k) := fun h => hpk (by rw [hpk', h])
        simp [hpk, hpk', hk'k]
      · have hb : (p.1 == k') = false := beq_eq_false_iff_ne.mpr hpk'
        rw [hb, Bool.false_or]
        simp [hpk, hpk']

theorem dictAdd_keys (d d' : List (String × ℚ)) (k : String) (v : ℚ)
    (h : dictAdd d k v = some d') :
    d'.map Prod.fst = d.map Prod.fst := by
  unfold dictAdd at h
  split at h
  · cases h
    rw [List.map_map]
    apply List.map_congr_left
    intro p _
    by_cases hp : p.1 = k <;> simp [hp]
  · cases h

theorem dictAdd_some (d : List (String × ℚ)) (k : String) (v : ℚ)
    (h : k ∈ d.map Prod.fst) :
    ∃ d', dictAdd d k v = some d' := by
  unfold dictAdd
  have : (d.any fun p => p.1 == k) = true := by
    rw [List.any_eq_true]
    rcases List.mem_map.mp h with ⟨p, hp, hpk⟩
    exact ⟨p, hp, by simp [hpk]⟩
  simp [this]

theorem dictAdd_get (d d' : List (String × ℚ)) (k : String) (v : ℚ)
    (h : dictAdd d k v = some d') (k' : String) (c : ℚ) :
    dictGet d' k' c = dictGet d k' c + if k' = k then v else 0 := by
  unfold dictAdd at h
  split at h
  case isTrue hany =>
    cases h
    rw [dictGet_map_add]
    by_cases hk'k : k' = k
    · subst hk'k
      simp [hany]
    · simp [hk'k]
  case isFalse => cases h

theorem sumVals_nil (k : String) : sumVals [] k = 0 := rfl

theorem sumVals_cons (p : String × ℚ) (rest : List (String × ℚ))
    (k : String) :
    sumVals (p :: rest) k =
      (if p.1 = k then p.2 else 0) + sumVals rest k := by
  by_cases hp : p.1 = k <;> simp [sumVals, hp]

theorem sumVals_of_not_mem (nv : List (String × ℚ)) (k : String)
    (h : ∀ p ∈ nv, p.1 ≠ k) : sumVals nv k = 0 := by
  induction nv with
  | nil => rfl
  | cons p rest ih =>
    rw [sumVals_cons]
    rw [if_neg (h p (by simp)), ih (fun q hq => h q (by simp [hq]))]
    ring

theorem sumVals_eq_dictGet (nv : List (String × ℚ)) (k : String)
    (hnd : (nv.map Prod.fst).Nodup) (hk : k ∈ nv.map Prod.fst) :
    sumVals nv k = dictGet nv k 0 := by
  induction nv with
  | nil => simp at hk
  | cons p rest ih =>
    rw [sumVals_cons]
    rw [List.map_cons, List.nodup_cons] at hnd
    by_cases hp : p.1 = k
    · have hrest : sumVals rest k = 0 := by
        apply sumVals_of_not_mem
        intro q hq hqk
        apply hnd.1
        have hm : q.1 ∈ rest.map Prod.fst := List.mem_map_of_mem Prod.fst hq
        rwa [hqk, ← hp] at hm
      rw [if_pos hp, hrest, dictGet_cons_pos _ _ _ _ hp]
      ring
    · have hk' : k ∈ rest.map Prod.fst := by
        rw [List.map_cons] at hk
        rcases List.mem_cons.mp hk with h | h
        · exact absurd h.symm hp
        · exact h
      rw [if_neg hp, ih hnd.2 hk', dictGet_cons_neg _ _ _ _ hp]
      ring

theorem tracker_foldl_dictAdd (count : ℚ) :
    ∀ (nv : List (String × ℚ)) (d : List (String × ℚ)),
    (∀ p ∈ nv, p.1 ∈ d.map Prod.fst) →
    ∃ d', nv.foldlM (fun d p => dictAdd d p.1 (p.2 * count)) d = some d' ∧
      d'.map Prod.fst = d.map Prod.fst ∧
      ∀ k c, dictGet d' k c = dictGet d k c + sumVals nv k * count := by
  intro nv
  induction nv with
  | nil =>
    intro d _
    refine ⟨d, rfl, rfl, fun k c => ?_⟩
    rw [sumVals_nil]
    ring
  | cons p rest ih =>
    intro d hmem
    obtain ⟨d₁, hd₁⟩ := dictAdd_some d p.1 (p.2 * count) (hmem p (by simp))
    have hkeys₁ := dictAdd_keys _ _ _ _ hd₁
    obtain ⟨d', hfold, hkeys, hget⟩ := ih d₁ (fun q hq => by
      rw [hkeys₁]; exact hmem q (by simp [hq]))
    refine ⟨d', ?_, by rw [hkeys, hkeys₁], fun k c => ?_⟩
    · rw [List.foldlM_cons, hd₁]
      simpa using hfold
    · have hiff : (if k = p.1 then p.2 * count else 0) =
          (if p.1 = k then p.2 else 0) * count := by
        by_cases hpk : p.1 = k
        · rw [if_pos hpk.symm, if_pos hpk]
        · rw [if_neg (fun h => hpk h.symm), if_neg hpk]
          ring
      rw [hget k c, dictAdd_get _ _ _ _ hd₁ k c, sumVals_cons, hiff]
      ring

theorem Tracker.update_spec (t : Tracker) (nv : List (String × ℚ))
    (count : ℚ) (hmem : ∀ p ∈ nv, p.1 ∈ t.values.map Prod.fst) :
    ∃ t', t.update nv count = some t' ∧
      t'.names = t.names ∧ t'.counter = t.counter + count ∧
      t'.values.map Prod.fst = t.values.map Prod.fst ∧
      ∀ k c, dictGet t'.values k c =
        dictGet t.values k c + sumVals nv k * count := by
  obtain ⟨d', hfold, hkeys, hget⟩ := tracker_foldl_dictAdd count nv t.values hmem
  refine ⟨{ t with values := d', counter := t.counter + count },
    ?_, rfl, rfl, hkeys, hget⟩
  unfold Tracker.update
  rw [hfold]
  rfl

theorem Tracker.runUpdates_spec :
    ∀ (calls : List (List (String × ℚ) × ℚ)) (t : Tracker),
    (∀ cl ∈ calls, ∀ p ∈ cl.1, p.1 ∈ t.values.map Prod.fst) →
    ∃ t', t.runUpdates calls = some t' ∧
      t'.names = t.names ∧
      t'.counter = t.counter + (calls.map Prod.snd).sum ∧
      t'.values.map Prod.fst = t.values.map Prod.fst ∧
      ∀ k c, dictGet t'.values k c =
        dictGet t.values k c +
          (calls.map fun cl => sumVals cl.1 k * cl.2).sum := by
  intro calls
  induction calls with
  | nil =>
    intro t _
    exact ⟨t, rfl, rfl, by simp, rfl, by simp⟩
  | cons cl rest ih =>
    intro t hmem
    obtain ⟨t₁, hupd, hn₁, hc₁, hk₁, hg₁⟩ :=
      Tracker.update_spec t cl.1 cl.2 (hmem cl (by simp))
    obtain ⟨t', hrun, hn, hc, hk, hg⟩ := ih t₁ (fun c hc p hp => by
      rw [hk₁]; exact hmem c (by simp [hc]) p hp)
    refine ⟨t', ?_, by rw [hn, hn₁], ?_, by rw [hk, hk₁], fun k c => ?_⟩
    · unfold Tracker.runUpdates at hrun ⊢
      rw [List.foldlM_cons, hupd]
      simpa using hrun
    · rw [hc, hc₁, List.map_cons, List.sum_cons]
      ring
    · rw [hg k c, hg₁ k c, List.map_cons, List.sum_cons]
      ring

theorem tracker_init_keys (names : List String) :
    ((names.map fun n => (n, (0 : ℚ))).map Prod.fst) = names := by
  simp [List.map_map, Function.comp_def]

theorem dictGet_tracker_init (names : List String) (k : String) (c : ℚ) :
    dictGet (names.map fun n => (n, (0 : ℚ))) k c =
      if k ∈ names then 0 else c := by
  induction names with
  | nil => simp [dictGet]
  | cons n rest ih =>
    by_cases hnk : n = k
    · simp [dictGet, hnk]
    · have hkn : ¬ (k = n) := fun h => hnk h.symm
      simp [dictGet, hnk, hkn, ih]

/-- C6: for every name in the construction name set and every finite
sequence of `update(named_values, count)` calls supplying that name,
`tracker[name]` equals the sum over calls of value*count divided by the
sum over calls of count (in ℚ a quotient with denominator 0 is 0, which
matches the code's zero-counter guard, so the formula also covers the
before-any-update case); indexing before any update returns 0 for every
name; and `len(tracker) == len(names)`. -/
theorem c6_tracker_running_mean (names : List String) (name : String)
    (calls : List (List (String × ℚ) × ℚ))
    (hne : names ≠ [])
    (hname : name ∈ names)
    (hcalls : ∀ cl ∈ calls, (cl.1.map Prod.fst).Nodup ∧
      name ∈ cl.1.map Prod.fst ∧ ∀ p ∈ cl.1, p.1 ∈ names) :
    ∃ t₀ t', tracker.init names = some t₀ ∧
      t₀.runUpdates calls = some t' ∧
      t'.getitem name =
        (calls.map fun cl => dictGet cl.1 name 0 * cl.2).sum /
          (calls.map Prod.snd).sum ∧
      (∀ n, t₀.getitem n = 0) ∧
      t'.len = names.length := by
  have hlen : 0 < names.length := List.length_pos.mpr hne
  have hinit : tracker.init names =
      some { names := names, values := names.map fun n => (n, (0 : ℚ)),
             counter := 0 } := by
    unfold tracker.init
    rw [if_pos hlen]
  set t₀ : Tracker :=
    { names := names, values := names.map fun n => (n, (0 : ℚ)),
      counter := 0 } with ht₀
  have hkeys₀ : t₀.values.map Prod.fst = names := tracker_init_keys names
  obtain ⟨t', hrun, hn, hc, _, hg⟩ :=
    Tracker.runUpdates_spec calls t₀ (fun cl hcl p hp => by
      rw [hkeys₀]; exact (hcalls cl hcl).2.2 p hp)
  have hnum : dictGet t'.values name 0 =
      (calls.map fun cl => dictGet cl.1 name 0 * cl.2).sum := by
    rw [hg name 0]
    have h₀ : dictGet t₀.values name 0 = 0 := by
      rw [show t₀.values = names.map fun n => (n, (0 : ℚ)) from rfl,
        dictGet_tracker_init]
      simp [hname]
    rw [h₀, zero_add]
    congr 1
    apply List.map_congr_left
    intro cl hcl
    rw [sumVals_eq_dictGet cl.1 name (hcalls cl hcl).1 (hcalls cl hcl).2.1]
  have hcnt : t'.counter = (calls.map Prod.snd).sum := by
    rw [hc]
    show (0 : ℚ) + _ = _
    ring
  refine ⟨t₀, t', hinit, hrun, ?_, ?_, ?_⟩
  · unfold Tracker.getitem
    by_cases hz : t'.counter = 0
    · rw [if_neg (not_not_intro hz)]
      have hden : (calls.map Prod.snd).sum = 0 := by rw [← hcnt]; exact hz
      rw [hden, div_zero]
    · rw [if_pos hz, hnum, hcnt]
  · intro n
    unfold Tracker.getitem
    rw [if_neg (not_not_intro rfl)]
  · rw [Tracker.len, hn]

/-- C6 witness: one tracker with name set `["a"]` and a single update
supplying value 2 with count 1. -/
theorem c6_tracker_running_mean_witness :
    ∃ t₀ t', tracker.init ["a"] = some t₀ ∧
      t₀.runUpdates [([("a", 2)], 1)] = some t' ∧
      t'.getitem "a" =
        (([([("a", (2 : ℚ))], (1 : ℚ))]).map
          fun cl => dictGet cl.1 "a" 0 * cl.2).sum /
          (([([("a", (2 : ℚ))], (1 : ℚ))]).map Prod.snd).sum ∧
      (∀ n, t₀.getitem n = 0) ∧
      t'.len = (["a"]).length :=
  c6_tracker_running_mean ["a"] "a" [([("a", 2)], 1)]
    (by decide) (by decide) (by decide)

/-- C10: indexing a tracker with a name outside the construction name set
returns 0 both before any update and after any sequence of successful
updates, rather than failing. -/
theorem c10_tracker_unknown_name (names : List String) (name : String)
    (calls : List (List (String × ℚ) × ℚ))
    (hne : names ≠ [])
    (hnot : name ∉ names)
    (hcalls : ∀ cl ∈ calls, ∀ p ∈ cl.1, p.1 ∈ names) :
    ∃ t₀ t', tracker.init names = some t₀ ∧
      t₀.runUpdates calls = some t' ∧
      t₀.getitem name = 0 ∧ t'.getitem name = 0 := by
  have hlen : 0 < names.length := List.length_pos.mpr hne
  have hinit : tracker.init names =
      some { names := names, values := names.map fun n => (n, (0 : ℚ)),
             counter := 0 } := by
    unfold tracker.init
    rw [if_pos hlen]
  set t₀ : Tracker :=
    { names := names, values := names.map fun n => (n, (0 : ℚ)),
      counter := 0 } with ht₀
  have hkeys₀ : t₀.values.map Prod.fst = names := tracker_init_keys names
  obtain ⟨t', hrun, _, _, _, hg⟩ :=
    Tracker.runUpdates_spec calls t₀ (fun cl hcl p hp => by
      rw [hkeys₀]; exact hcalls cl hcl p hp)
  have hnum : dictGet t'.values name 0 = 0 := by
    rw [hg name 0]
    have h₀ : dictGet t₀.values name 0 = 0 := by
      rw [show t₀.values = names.map fun n => (n, (0 : ℚ)) from rfl,
        dictGet_tracker_init]
      simp [hnot]
    have hz : ∀ cl ∈ calls, sumVals cl.1 name = 0 := fun cl hcl =>
      sumVals_of_not_mem cl.1 name (fun p hp hpk =>
        hnot (hpk ▸ hcalls cl hcl p hp))
    rw [h₀, zero_add]
    rw [List.map_congr_left (fun cl hcl => by rw [hz cl hcl, zero_mul])]
    simp
  refine ⟨t₀, t', hinit, hrun, ?_, ?_⟩
  · unfold Tracker.getitem
    rw [if_neg (not_not_intro rfl)]
  · unfold Tracker.getitem
    by_cases hz : t'.counter = 0
    · rw [if_neg (not_not_intro hz)]
    · rw [if_pos hz, hnum, zero_div]

/-- C10 witness: name set `["a"]`, one update on `"a"`, indexing `"b"`. -/
theorem c10_tracker_unknown_name_witness :
    ∃ t₀ t', tracker.init ["a"] = some t₀ ∧
      t₀.runUpdates [([("a", 2)], 1)] = some t' ∧
      t₀.getitem "b" = 0 ∧ t'.getitem "b" = 0 :=
  c10_tracker_unknown_name ["a"] "b" [([("a", 2)], 1)]
    (by decide) (by decide) (by decide)

/-! ### Lemmas about `prior_buffer` -/

theorem getD_set_self {α : Type} (l : List α) (n : Nat) (a d : α)
    (h : n < l.length) : (l.set n a).getD n d = a := by
  rw [List.getD_eq_getElem?_getD, List.getElem?_set_self h]
  rfl

theorem getD_set_ne {α : Type} (l : List α) (n j : Nat) (a d : α)
    (h : n ≠ j) : (l.set n a).getD j d = l.getD j d := by
  rw [List.getD_eq_getElem?_getD, List.getElem?_set_ne h,
    List.getD_eq_getElem?_getD]

/-- Characterization of one successful loop iteration of `update_buffer`. -/
theorem updateStep_ok (pb : PriorBuffer) (p : Mat) (i l : Nat)
    (pb' : PriorBuffer)
    (h : prior_buffer.updateStep pb p i l = .ok pb') :
    pb' = { pb with
      buffer := if pb.count.getD (i % pb.buffer.length) 0 % pb.freq = 0 then
          pb.buffer.set (i % pb.buffer.length) (p.take l)
        else pb.buffer,
      count := pb.count.set (i % pb.buffer.length)
        (pb.count.getD (i % pb.buffer.length) 0 + 1) } ∧
    (pb.count.getD (i % pb.buffer.length) 0 % pb.freq = 0 →
      (pb.buffer.getD (i % pb.buffer.length) []).length = l) := by
  unfold prior_buffer.updateStep at h
  by_cases hrefresh : pb.count.getD (i % pb.buffer.length) 0 % pb.freq = 0
  · by_cases hl : (pb.buffer.getD (i % pb.buffer.length) []).length = l
    · rw [if_pos hrefresh, if_pos hl] at h
      have h' := Except.ok.inj h
      exact ⟨by rw [← h', if_pos hrefresh], fun _ => hl⟩
    · rw [if_pos hrefresh, if_neg hl] at h
      exact Except.noConfusion h
  · rw [if_neg hrefresh] at h
    have h' := Except.ok.inj h
    exact ⟨by rw [← h', if_neg hrefresh], fun hr => absurd hr hrefresh⟩

theorem exceptBind_ok {ε α β : Type} (a : α) (f : α → Except ε β) :
    ((Except.ok a : Except ε α) >>= f) = f a := rfl

theorem exceptBind_error {ε α β : Type} (e : ε) (f : α → Except ε β) :
    ((Except.error e : Except ε α) >>= f) = .error e := rfl

/-- C1: in `update_buffer`, the triples of `zip(post, ixs, seq_len)` are
processed in order by the loop body `updateStep`; for one triple `(p, i,
l)` the target slot is `i % len(buffer)`; on a successful step the target
slot's refresh counter grows by exactly 1 (and no other counter changes)
whether or not the overwrite happened, and the slot content is overwritten
with the first `l` rows of `p` exactly when `count[new_i] % freq == 0`
held on entry (otherwise the buffer is untouched). -/
theorem c1_update_buffer_refresh (pb : PriorBuffer) (p : Mat) (i l : Nat)
    (hfreq : 0 < pb.freq) (hlen : 0 < pb.buffer.length)
    (hcnt : pb.count.length = pb.buffer.length) :
    (∀ (post : List Mat) (ixs seq_len : List Nat) (p₀ : Mat) (i₀ l₀ : Nat),
      prior_buffer.update_buffer pb (i₀ :: ixs) (p₀ :: post)
          (l₀ :: seq_len) =
        (prior_buffer.updateStep pb p₀ i₀ l₀ >>= fun pb1 =>
          prior_buffer.update_buffer pb1 ixs post seq_len)) ∧
    (∀ pb', prior_buffer.updateStep pb p i l = .ok pb' →
      pb'.count.getD (i % pb.buffer.length) 0 =
        pb.count.getD (i % pb.buffer.length) 0 + 1 ∧
      (∀ j, j ≠ i % pb.buffer.length →
        pb'.count.getD j 0 = pb.count.getD j 0) ∧
      (pb.count.getD (i % pb.buffer.length) 0 % pb.freq = 0 →
        pb'.buffer.getD (i % pb.buffer.length) [] = p.take l) ∧
      (¬ pb.count.getD (i % pb.buffer.length) 0 % pb.freq = 0 →
        pb'.buffer = pb.buffer)) := by
  constructor
  · intro post ixs seq_len p₀ i₀ l₀
    rfl
  · intro pb' h
    obtain ⟨hpb', _⟩ := updateStep_ok pb p i l pb' h
    subst hpb'
    have hmod : i % pb.buffer.length < pb.buffer.length :=
      Nat.mod_lt _ hlen
    refine ⟨?_, ?_, ?_, ?_⟩
    · exact getD_set_self _ _ _ _ (by rw [hcnt]; exact hmod)
    · intro j hj
      exact getD_set_ne _ _ _ _ _ (fun hx => hj hx.symm)
    · intro hr
      show (if pb.count.getD (i % pb.buffer.length) 0 % pb.freq = 0 then
          pb.buffer.set (i % pb.buffer.length) (p.take l)
        else pb.buffer).getD (i % pb.buffer.length) [] = p.take l
      rw [if_pos hr]
      exact getD_set_self _ _ _ _ hmod
    · intro hr
      show (if pb.count.getD (i % pb.buffer.length) 0 % pb.freq = 0 then
          pb.buffer.set (i % pb.buffer.length) (p.take l)
        else pb.buffer) = pb.buffer
      rw [if_neg hr]

/-- C1 witness: one slot of length 2, `freq = 2`, refresh count 0 (due for
refresh), updated with the first 2 rows of a 3-row value. -/
theorem c1_update_buffer_refresh_witness :
    prior_buffer.update_buffer ⟨1, 2, none, [[[0], [0]]], [0]⟩
        [0] [[[1], [2], [3]]] [2] =
      (prior_buffer.updateStep ⟨1, 2, none, [[[0], [0]]], [0]⟩
          [[1], [2], [3]] 0 2 >>= fun pb1 =>
        prior_buffer.update_buffer pb1 [] [] []) ∧
    (⟨1, 2, none, [[[1], [2]]], [1]⟩ : PriorBuffer).count.getD 0 0 =
      (⟨1, 2, none, [[[0], [0]]], [0]⟩ : PriorBuffer).count.getD 0 0 + 1 ∧
    (⟨1, 2, none, [[[1], [2]]], [1]⟩ : PriorBuffer).buffer.getD 0 [] =
      ([[1], [2], [3]] : Mat).take 2 := by
  have h := c1_update_buffer_refresh ⟨1, 2, none, [[[0], [0]]], [0]⟩
    [[1], [2], [3]] 0 2 (by decide) (by decide) (by decide)
  exact ⟨h.1 [] [] [] [[1], [2], [3]] 0 2,
    (h.2 ⟨1, 2, none, [[[1], [2]]], [1]⟩ rfl).1,
    (h.2 ⟨1, 2, none, [[[1], [2]]], [1]⟩ rfl).2.2.1 rfl⟩

/-- C3 counterexample: slot 0 has length 3 and refresh counter 1 with
`freq = 2` (not due for refresh); the caller supplies length 5, which
disagrees, yet `update_buffer` succeeds (no assertion failure) and just
bumps the counter. -/
theorem c3_counterexample :
    prior_buffer.update_buffer ⟨1, 2, none, [[[0], [0], [0]]], [1]⟩
        [0] [[[7]]] [5] =
      .ok ⟨1, 2, none, [[[0], [0], [0]]], [2]⟩ ∧
    ((⟨1, 2, none, [[[0], [0], [0]]], [1]⟩ :
      PriorBuffer).buffer.getD 0 []).length ≠ 5 :=
  ⟨rfl, by decide⟩

/-- C3 amended: the length assertion sits inside the refresh branch, so a
`(p, i, l)` triple makes `update_buffer`'s loop body fail with an
assertion failure exactly when the slot is due for refresh
(`count[new_i] % freq == 0`) AND the supplied length disagrees with the
slot's established length; when the slot is not due, a mismatched length
is silently accepted. -/
theorem c3_assert_only_on_refresh (pb : PriorBuffer) (p : Mat) (i l : Nat)
    (hfreq : 0 < pb.freq) :
    (∃ e, prior_buffer.updateStep pb p i l = .error e) ↔
      (pb.count.getD (i % pb.buffer.length) 0 % pb.freq = 0 ∧
        (pb.buffer.getD (i % pb.buffer.length) []).length ≠ l) := by
  unfold prior_buffer.updateStep
  by_cases hrefresh : pb.count.getD (i % pb.buffer.length) 0 % pb.freq = 0
  · by_cases hl : (pb.buffer.getD (i % pb.buffer.length) []).length = l
    · rw [if_pos hrefresh, if_pos hl]
      constructor
      · rintro ⟨e, he⟩
        exact Except.noConfusion he
      · rintro ⟨_, hne⟩
        exact absurd hl hne
    · rw [if_pos hrefresh, if_neg hl]
      constructor
      · intro _
        exact ⟨hrefresh, hl⟩
      · intro _
        exact ⟨"AssertionError", rfl⟩
  · rw [if_neg hrefresh]
    constructor
    · rintro ⟨e, he⟩
      exact Except.noConfusion he
    · rintro ⟨hr, _⟩
      exact absurd hr hrefresh

/-- C3 amended witness: slot due for refresh (count 0) and length 5 ≠ 3
gives an assertion failure. -/
theorem c3_assert_only_on_refresh_witness :
    (∃ e, prior_buffer.updateStep ⟨1, 2, none, [[[0], [0], [0]]], [0]⟩
        [[7]] 0 5 = .error e) ↔ ((0 : Nat) % 2 = 0 ∧ (3 : Nat) ≠ 5) :=
  c3_assert_only_on_refresh ⟨1, 2, none, [[[0], [0], [0]]], [0]⟩
    [[7]] 0 5 (by decide)

/-- C2 counterexample: a non-null `init_path` whose derived file
`"d/n_1"` does not exist on the filesystem; construction SUCCEEDS and
falls back to the fresh zero buffer instead of raising. -/
theorem c2_counterexample :
    prior_buffer.init [2] 1 1 "n" (some "d") (fun _ => none) =
      .ok ⟨1, 1, some "d/n_1", [[[0], [0]]], [0]⟩ ∧
    (fun _ => (none : Option (List SerMat))) "d/n_1" = none :=
  ⟨rfl, rfl⟩

/-- C2 amended: the condition `self.path is None or not
os.path.isfile(self.path)` routes a non-null-but-missing path to the
fresh zero-init branch, so construction falls back rather than failing;
moreover construction never raises at all (the `raise ValueError` branch
is unreachable), and the branch taken is fresh-zero exactly when the path
is null or missing, load exactly when the file exists. -/
theorem c2_missing_path_falls_back :
    (∀ (inputs : List Nat) (dim freq : Nat) (name ip : String)
      (fs : PickleFS) (p : String),
      priorPath (some ip) name dim = some p → fs p = none →
      prior_buffer.init inputs dim freq name (some ip) fs =
        .ok { dim := dim, freq := freq, path := some p,
              buffer := zeroBuf inputs dim,
              count := List.replicate inputs.length 0 }) ∧
    (∀ (inputs : List Nat) (dim freq : Nat) (name : String)
      (init_path : Option String) (fs : PickleFS),
      ∃ pb, prior_buffer.init inputs dim freq name init_path fs =
        .ok pb ∧
        ((pb.buffer = zeroBuf inputs dim ∧
          ∀ p, priorPath init_path name dim = some p → fs p = none) ∨
         (∃ p s, priorPath init_path name dim = some p ∧ fs p = some s ∧
          pb.buffer = deserBuf s))) := by
  constructor
  · intro inputs dim freq name ip fs p hp hmiss
    unfold prior_buffer.init
    rw [hp]
    simp [hmiss]
  · intro inputs dim freq name init_path fs
    unfold prior_buffer.init
    cases init_path with
    | none =>
      refine ⟨{ dim := dim, freq := freq, path := none,
                buffer := zeroBuf inputs dim,
                count := List.replicate inputs.length 0 },
        by simp [priorPath], Or.inl ⟨rfl, ?_⟩⟩
      intro p hp
      simp [priorPath] at hp
    | some ip =>
      rcases hfs : fs (ip ++ "/" ++ name ++ "_" ++ toString dim) with _ | s
      · refine ⟨{ dim := dim, freq := freq,
                  path := some (ip ++ "/" ++ name ++ "_" ++ toString dim),
                  buffer := zeroBuf inputs dim,
                  count := List.replicate inputs.length 0 },
          by simp [priorPath, hfs], Or.inl ⟨rfl, ?_⟩⟩
        intro p hp
        have : p = ip ++ "/" ++ name ++ "_" ++ toString dim := by
          simpa [priorPath] using hp.symm
        rw [this]
        exact hfs
      · refine ⟨{ dim := dim, freq := freq,
                  path := some (ip ++ "/" ++ name ++ "_" ++ toString dim),
                  buffer := deserBuf s,
                  count := List.replicate inputs.length 0 },
          ?_, Or.inr ⟨ip ++ "/" ++ name ++ "_" ++ toString dim, s,
          by simp [priorPath], hfs, rfl⟩⟩
        simp [priorPath, prior_buffer.loadFrom, hfs]

/-- C2 amended witness. -/
theorem c2_missing_path_falls_back_witness :
    prior_buffer.init [2] 1 1 "n" (some "d") (fun _ => none) =
      .ok { dim := 1, freq := 1, path := some "d/n_1",
            buffer := zeroBuf [2] 1,
            count := List.replicate ([2] : List Nat).length 0 } :=
  c2_missing_path_falls_back.1 [2] 1 1 "n" "d" (fun _ => none) "d/n_1"
    rfl rfl

theorem updateStep_lengths (pb pb' : PriorBuffer) (p : Mat) (i l : Nat)
    (h : prior_buffer.updateStep pb p i l = .ok pb') :
    pb'.buffer.length = pb.buffer.length ∧
      pb'.count.length = pb.count.length := by
  obtain ⟨hpb', _⟩ := updateStep_ok pb p i l pb' h
  subst hpb'
  constructor
  · show (if pb.count.getD (i % pb.buffer.length) 0 % pb.freq = 0 then
        pb.buffer.set (i % pb.buffer.length) (p.take l)
      else pb.buffer).length = pb.buffer.length
    by_cases hr : pb.count.getD (i % pb.buffer.length) 0 % pb.freq = 0
    · rw [if_pos hr, List.length_set]
    · rw [if_neg hr]
  · exact List.length_set pb.count _ _

theorem updateStep_slot_lengths (pb pb' : PriorBuffer) (p : Mat)
    (i l : Nat) (hlen : 0 < pb.buffer.length) (hp : l ≤ p.length)
    (h : prior_buffer.updateStep pb p i l = .ok pb') :
    ∀ j, (pb'.buffer.getD j []).length = (pb.buffer.getD j []).length := by
  obtain ⟨hpb', hassert⟩ := updateStep_ok pb p i l pb' h
  subst hpb'
  intro j
  show ((if pb.count.getD (i % pb.buffer.length) 0 % pb.freq = 0 then
      pb.buffer.set (i % pb.buffer.length) (p.take l)
    else pb.buffer).getD j []).length = (pb.buffer.getD j []).length
  by_cases hr : pb.count.getD (i % pb.buffer.length) 0 % pb.freq = 0
  · rw [if_pos hr]
    by_cases hj : j = i % pb.buffer.length
    · subst hj
      rw [getD_set_self _ _ _ _ (Nat.mod_lt _ hlen), List.length_take,
        Nat.min_eq_left hp]
      exact (hassert hr).symm
    · rw [getD_set_ne _ _ _ _ _ (fun hx => hj hx.symm)]
  · rw [if_neg hr]

theorem fold_steps_lengths :
    ∀ (ts : List (Mat × Nat × Nat)) (pb pb' : PriorBuffer),
    ts.foldlM (fun pb t => prior_buffer.updateStep pb t.1 t.2.1 t.2.2) pb =
      .ok pb' →
    pb'.buffer.length = pb.buffer.length ∧
      pb'.count.length = pb.count.length := by
  intro ts
  induction ts with
  | nil =>
    intro pb pb' h
    cases Except.ok.inj h
    exact ⟨rfl, rfl⟩
  | cons t rest ih =>
    intro pb pb' h
    rw [List.foldlM_cons] at h
    rcases hstep : prior_buffer.updateStep pb t.1 t.2.1 t.2.2 with e | pb₁
    · rw [hstep, exceptBind_error] at h
      exact Except.noConfusion h
    · rw [hstep, exceptBind_ok] at h
      obtain ⟨hb, hc⟩ := ih pb₁ pb' h
      obtain ⟨hb₁, hc₁⟩ := updateStep_lengths pb pb₁ t.1 t.2.1 t.2.2 hstep
      exact ⟨hb.trans hb₁, hc.trans hc₁⟩

theorem fold_steps_slot_lengths :
    ∀ (ts : List (Mat × Nat × Nat)) (pb pb' : PriorBuffer),
    0 < pb.buffer.length →
    (∀ t ∈ ts, t.2.2 ≤ t.1.length) →
    ts.foldlM (fun pb t => prior_buffer.updateStep pb t.1 t.2.1 t.2.2) pb =
      .ok pb' →
    ∀ j, (pb'.buffer.getD j []).length = (pb.buffer.getD j []).length := by
  intro ts
  induction ts with
  | nil =>
    intro pb pb' _ _ h
    cases Except.ok.inj h
    intro j
    rfl
  | cons t rest ih =>
    intro pb pb' hlen hts h
    rw [List.foldlM_cons] at h
    rcases hstep : prior_buffer.updateStep pb t.1 t.2.1 t.2.2 with e | pb₁
    · rw [hstep, exceptBind_error] at h
      exact Except.noConfusion h
    · rw [hstep, exceptBind_ok] at h
      have hlen₁ : 0 < pb₁.buffer.length := by
        rw [(updateStep_lengths pb pb₁ t.1 t.2.1 t.2.2 hstep).1]
        exact hlen
      have h₁ := updateStep_slot_lengths pb pb₁ t.1 t.2.1 t.2.2 hlen
        (hts t (by simp)) hstep
      have h₂ := ih pb₁ pb' hlen₁ (fun q hq => hts q (by simp [hq])) h
      intro j
      exact (h₂ j).trans (h₁ j)

/-- C5 counterexample, in two parts.  First, loading from a persisted
file holding ONE slot while `inputs` has TWO rows gives `len(buffer) = 1
≠ 2 = len(refresh_count)` right after construction, breaking the claimed
invariant in the load branch.  Second, on a ragged buffer (slots of
lengths 3 and 1, so numpy stores an object array whose element
assignment replaces the stored array), an `update_buffer` call whose
value `p` has only 2 rows but whose supplied length is the slot's
established 3 passes the assert (`len(buffer[0]) == 3`) and then stores
`p[:3] = p`, SHRINKING slot 0's first dimension from 3 to 2 — so a
slot's first dimension established at creation can change. -/
theorem c5_counterexample :
    (prior_buffer.init [2, 2] 1 1 "n" (some "d")
        (fun q => if q = "d/n_1" then some [(1, 1, [5])] else none) =
      .ok ⟨1, 1, some "d/n_1", [[[5]]], [0, 0]⟩ ∧
    ([[[5]]] : Buf).length ≠ ([0, 0] : List Nat).length) ∧
    (prior_buffer.update_buffer
        ⟨1, 1, none, [[[0], [0], [0]], [[9]]], [0, 0]⟩
        [0] [[[1], [2]]] [3] =
      .ok ⟨1, 1, none, [[[1], [2]], [[9]]], [1, 0]⟩ ∧
    ((⟨1, 1, none, [[[0], [0], [0]], [[9]]], [0, 0]⟩ :
        PriorBuffer).buffer.getD 0 []).length = 3 ∧
    ((⟨1, 1, none, [[[1], [2]], [[9]]], [1, 0]⟩ :
        PriorBuffer).buffer.getD 0 []).length = 2) :=
  ⟨⟨rfl, by decide⟩, rfl, by decide, by decide⟩

/-- C5 amended: `len(buffer) == len(refresh_count)` holds after
construction in the fresh zero-init branch, and in the load branch
exactly when the persisted buffer has as many slots as `inputs`; every
successful `update_buffer` call preserves both lengths, and preserves
each slot's first dimension provided every supplied value has at least as
many rows as its supplied length (numpy's `p[:l]` silently shortens
otherwise). -/
theorem c5_buffer_count_invariant :
    (∀ (inputs : List Nat) (dim freq : Nat) (name : String)
      (fs : PickleFS),
      ∃ pb, prior_buffer.init inputs dim freq name none fs = .ok pb ∧
        pb.buffer.length = pb.count.length) ∧
    (∀ (inputs : List Nat) (dim freq : Nat) (name ip : String)
      (fs : PickleFS) (p : String) (s : List SerMat),
      priorPath (some ip) name dim = some p → fs p = some s →
      s.length = inputs.length →
      ∃ pb, prior_buffer.init inputs dim freq name (some ip) fs =
        .ok pb ∧ pb.buffer.length = pb.count.length) ∧
    (∀ (pb pb' : PriorBuffer) (ixs : List Nat) (post : List Mat)
      (seq_len : List Nat),
      prior_buffer.update_buffer pb ixs post seq_len = .ok pb' →
      pb'.buffer.length = pb.buffer.length ∧
      pb'.count.length = pb.count.length) ∧
    (∀ (pb pb' : PriorBuffer) (ixs : List Nat) (post : List Mat)
      (seq_len : List Nat),
      0 < pb.buffer.length →
      (∀ t ∈ post.zip (ixs.zip seq_len), t.2.2 ≤ t.1.length) →
      prior_buffer.update_buffer pb ixs post seq_len = .ok pb' →
      ∀ j, (pb'.buffer.getD j []).length =
        (pb.buffer.getD j []).length) := by
  refine ⟨?_, ?_, ?_, ?_⟩
  · intro inputs dim freq name fs
    refine ⟨{ dim := dim, freq := freq, path := none,
              buffer := zeroBuf inputs dim,
              count := List.replicate inputs.length 0 },
      by simp [prior_buffer.init, priorPath], ?_⟩
    simp [zeroBuf]
  · intro inputs dim freq name ip fs p s hp hfile hslots
    refine ⟨{ dim := dim, freq := freq, path := some p,
              buffer := deserBuf s,
              count := List.replicate inputs.length 0 }, ?_, ?_⟩
    · unfold prior_buffer.init
      rw [hp]
      simp [hfile, prior_buffer.loadFrom]
    · simp [deserBuf, hslots]
  · intro pb pb' ixs post seq_len h
    exact fold_steps_lengths _ pb pb' h
  · intro pb pb' ixs post seq_len hlen hts h
    exact fold_steps_slot_lengths _ pb pb' hlen hts h

/-- C5 amended witness: a fresh construction, a load with matching slot
count, and one concrete `update_buffer` call. -/
theorem c5_buffer_count_invariant_witness :
    (∃ pb, prior_buffer.init [2] 1 1 "n" none (fun _ => none) = .ok pb ∧
      pb.buffer.length = pb.count.length) ∧
    (∃ pb, prior_buffer.init [1] 1 1 "n" (some "d")
        (fun q => if q = "d/n_1" then some [(1, 1, [5])] else none) =
      .ok pb ∧ pb.buffer.length = pb.count.length) ∧
    ((⟨1, 2, none, [[[1], [2]]], [1]⟩ : PriorBuffer).buffer.length =
      (⟨1, 2, none, [[[0], [0]]], [0]⟩ : PriorBuffer).buffer.length) ∧
    (((⟨1, 2, none, [[[1], [2]]], [1]⟩ : PriorBuffer).buffer.getD 0
        []).length =
      ((⟨1, 2, none, [[[0], [0]]], [0]⟩ : PriorBuffer).buffer.getD 0
        []).length) := by
  refine ⟨c5_buffer_count_invariant.1 [2] 1 1 "n" (fun _ => none),
    c5_buffer_count_invariant.2.1 [1] 1 1 "n" "d"
      (fun q => if q = "d/n_1" then some [(1, 1, [5])] else none)
      "d/n_1" [(1, 1, [5])] rfl (by decide) rfl,
    (c5_buffer_count_invariant.2.2.1 ⟨1, 2, none, [[[0], [0]]], [0]⟩
      ⟨1, 2, none, [[[1], [2]]], [1]⟩ [0] [[[1], [2], [3]]] [2] rfl).1,
    c5_buffer_count_invariant.2.2.2 ⟨1, 2, none, [[[0], [0]]], [0]⟩
      ⟨1, 2, none, [[[1], [2]]], [1]⟩ [0] [[[1], [2], [3]]] [2]
      (by decide) (by decide) rfl 0⟩

theorem splitRows_flatten :
    ∀ (m : Mat) (w : Nat), (∀ row ∈ m, row.length = w) →
    splitRows m.length w m.flatten = m := by
  intro m
  induction m with
  | nil => intro w _; rfl
  | cons row rest ih =>
    intro w hw
    have hr : row.length = w := hw row (by simp)
    show splitRows (rest.length + 1) w (row :: rest).flatten = row :: rest
    rw [List.flatten_cons]
    show ((row ++ rest.flatten).take w) ::
        splitRows rest.length w ((row ++ rest.flatten).drop w) =
      row :: rest
    rw [List.take_left' hr, List.drop_left' hr,
      ih w (fun r hrr => hw r (by simp [hrr]))]

theorem deserMat_serMat (m : Mat) (h : Rectangular m) :
    deserMat (serMat m) = m :=
  splitRows_flatten m (m.headD []).length h

theorem deserBuf_serBuf (b : Buf) (h : ∀ m ∈ b, Rectangular m) :
    deserBuf (serBuf b) = b := by
  unfold deserBuf serBuf
  rw [List.map_map]
  have hcongr : ∀ m ∈ b, (deserMat ∘ serMat) m = m := fun m hm =>
    deserMat_serMat m (h m hm)
  rw [List.map_congr_left hcongr]
  exact List.map_id' b

/-- C9: for every buffer whose slots are rectangular arrays (as numpy
arrays always are) and whose path is set, `save()` followed by `load()`
on the resulting filesystem returns exactly the saved buffer: same slot
count and, slot by slot, identical shape and element values. -/
theorem c9_save_load_roundtrip (pb : PriorBuffer) (fs : PickleFS)
    (p : String) (hp : pb.path = some p)
    (hrect : ∀ m ∈ pb.buffer, Rectangular m) :
    ∃ fs', prior_buffer.save pb fs = .ok fs' ∧
      prior_buffer.load pb fs' = .ok pb.buffer := by
  refine ⟨fun q => if q = p then some (serBuf pb.buffer) else fs q,
    ?_, ?_⟩
  · unfold prior_buffer.save
    rw [hp]
  · unfold prior_buffer.load prior_buffer.loadFrom
    rw [hp]
    simp [deserBuf_serBuf pb.buffer hrect]

/-- C9 witness: a two-slot buffer with distinct shapes and values. -/
theorem c9_save_load_roundtrip_witness :
    ∃ fs', prior_buffer.save
        ⟨2, 1, some "f", [[[1, 2]], [[3, 4], [5, 6]]], [0, 0]⟩
        (fun _ => none) = .ok fs' ∧
      prior_buffer.load
        ⟨2, 1, some "f", [[[1, 2]], [[3, 4], [5, 6]]], [0, 0]⟩ fs' =
      .ok (⟨2, 1, some "f", [[[1, 2]], [[3, 4], [5, 6]]], [0, 0]⟩ :
        PriorBuffer).buffer :=
  c9_save_load_roundtrip
    ⟨2, 1, some "f", [[[1, 2]], [[3, 4], [5, 6]]], [0, 0]⟩
    (fun _ => none) "f" rfl (by decide)

/-! ### Lemmas about `experiment` -/

theorem mem_mkdirOk (a b : String) (dirs : List String) (h : a ∈ dirs) :
    a ∈ mkdirOk b dirs := by
  unfold mkdirOk
  split
  · exact h
  · exact List.mem_cons_of_mem _ h

/-- C8: in non-debug mode, `experiment.__init__` raises immediately when
the derived experiment directory already exists; constructing against a
filesystem without the directory succeeds and creates it, so a second
construction with the identical configuration (hence the identical
derived directory) fails. -/
theorem c8_experiment_dir_collision
    (root identifier priorFile vocabFile : String) (dirs : List String)
    (h : experiment_dir false root identifier ∉ dirs) :
    (∀ ds : List String, experiment_dir false root identifier ∈ ds →
      experiment.init false (experiment_dir false root identifier)
        priorFile vocabFile ds =
      .error ("log exists: " ++ experiment_dir false root identifier)) ∧
    ∃ dirs', experiment.init false (experiment_dir false root identifier)
        priorFile vocabFile dirs = .ok dirs' ∧
      experiment_dir false root identifier ∈ dirs' ∧
      experiment.init false (experiment_dir false root identifier)
        priorFile vocabFile dirs' =
      .error ("log exists: " ++ experiment_dir false root identifier) := by
  have hfail : ∀ ds : List String,
      experiment_dir false root identifier ∈ ds →
      experiment.init false (experiment_dir false root identifier)
        priorFile vocabFile ds =
      .error ("log exists: " ++ experiment_dir false root identifier) := by
    intro ds hds
    unfold experiment.init
    simp only [hds, Bool.not_false, if_pos, if_true]
    rfl
  refine ⟨hfail,
    mkdirOk vocabFile (mkdirOk priorFile
      (experiment_dir false root identifier :: dirs)), ?_, ?_, ?_⟩
  · unfold experiment.init
    simp only [h, Bool.not_false, if_true, if_neg, not_false_eq_true]
    rfl
  · exact mem_mkdirOk _ _ _ (mem_mkdirOk _ _ _ (List.mem_cons_self _ _))
  · exact hfail _ (mem_mkdirOk _ _ _ (mem_mkdirOk _ _ _
      (List.mem_cons_self _ _)))

/-- C8 witness: empty filesystem, directory `"r/x"`. -/
theorem c8_experiment_dir_collision_witness :
    experiment.init false (experiment_dir false "r" "x") "pf" "vf"
        [experiment_dir false "r" "x"] =
      .error ("log exists: " ++ experiment_dir false "r" "x") ∧
    ∃ dirs', experiment.init false (experiment_dir false "r" "x")
        "pf" "vf" [] = .ok dirs' ∧
      experiment_dir false "r" "x" ∈ dirs' ∧
      experiment.init false (experiment_dir false "r" "x") "pf" "vf"
        dirs' =
      .error ("log exists: " ++ experiment_dir false "r" "x") := by
  have h := c8_experiment_dir_collision "r" "x" "pf" "vf" []
    (List.not_mem_nil _)
  exact ⟨h.1 [experiment_dir false "r" "x"] (List.mem_cons_self _ _), h.2⟩

/-! ### Lemmas about the reporters -/

theorem zl_match_sum_eq_filter_length :
    ∀ zl : List ((ℤ × ℤ) × ℚ), (∀ t ∈ zl, t.2 = 0 ∨ t.2 = 1) →
    (zl.map fun t => if t.1.1 = t.1.2 then t.2 else 0).sum =
      ((zl.filter fun t => decide (t.1.1 = t.1.2 ∧ t.2 ≠ 0)).length : ℚ) := by
  intro zl
  induction zl with
  | nil => simp
  | cons t rest ih =>
    intro hb
    have hrest := ih (fun q hq => hb q (List.mem_cons_of_mem _ hq))
    rw [List.map_cons, List.sum_cons, List.filter_cons, hrest]
    rcases hb t (by simp) with h0 | h1
    · by_cases he : t.1.1 = t.1.2
      · simp [he, h0]
      · simp [he]
    · by_cases he : t.1.1 = t.1.2
      · rw [if_pos he, h1]
        rw [if_pos (by simp [he, h1])]
        push_cast [List.length_cons]
        ring
      · simp [he]

theorem zl_filter_length_eq_snd_sum :
    ∀ zl : List ((ℤ × ℤ) × ℚ), (∀ t ∈ zl, t.2 = 0 ∨ t.2 = 1) →
    (∀ t ∈ zl, t.2 ≠ 0 → t.1.1 = t.1.2) →
    ((zl.filter fun t => decide (t.1.1 = t.1.2 ∧ t.2 ≠ 0)).length : ℚ) =
      (zl.map Prod.snd).sum := by
  intro zl
  induction zl with
  | nil => simp
  | cons t rest ih =>
    intro hb hm
    have hrest := ih (fun q hq => hb q (List.mem_cons_of_mem _ hq))
      (fun q hq => hm q (List.mem_cons_of_mem _ hq))
    rw [List.filter_cons, List.map_cons, List.sum_cons]
    rcases hb t (by simp) with h0 | h1
    · rw [if_neg (by simp [h0]), hrest, h0, zero_add]
    · have he : t.1.1 = t.1.2 := hm t (by simp) (by rw [h1]; norm_num)
      rw [if_pos (by simp [he, h1]), h1]
      push_cast [List.length_cons]
      rw [hrest]
      ring

theorem maskedMatchSum_eq_claimedCount (pred label : List ℤ)
    (mask : List ℚ) (hbin : ∀ m ∈ mask, m = 0 ∨ m = 1) :
    maskedMatchSum pred label mask =
      (claimedMatchedCount pred label mask : ℚ) := by
  unfold maskedMatchSum claimedMatchedCount
  apply zl_match_sum_eq_filter_length
  intro t ht
  exact hbin t.2 (List.of_mem_zip ht).2

theorem claimedCount_eq_maskSum (pred label : List ℤ) (mask : List ℚ)
    (hbin : ∀ m ∈ mask, m = 0 ∨ m = 1)
    (hmatch : ∀ t ∈ (pred.zip label).zip mask, t.2 ≠ 0 → t.1.1 = t.1.2)
    (hl1 : pred.length = label.length) (hl2 : label.length = mask.length) :
    (claimedMatchedCount pred label mask : ℚ) = mask.sum := by
  unfold claimedMatchedCount
  rw [zl_filter_length_eq_snd_sum _
    (fun t ht => hbin t.2 (List.of_mem_zip ht).2) hmatch]
  rw [List.map_snd_zip]
  rw [List.length_zip, hl1, hl2, Nat.min_self]

theorem accuracy_runUpdates_counts :
    ∀ (calls : List (List ℤ × List ℤ × List ℚ)) (r : AccuracyReporter),
    (accuracy_reporter.runUpdates r calls).right_count =
      r.right_count +
        (calls.map fun c => maskedMatchSum c.1 c.2.1 c.2.2).sum ∧
    (accuracy_reporter.runUpdates r calls).instance_count =
      r.instance_count + (calls.map fun c => c.2.2.sum).sum := by
  intro calls
  induction calls with
  | nil =>
    intro r
    constructor <;> simp [accuracy_reporter.runUpdates]
  | cons c rest ih =>
    intro r
    have h := ih (accuracy_reporter.update r c.1 c.2.1 c.2.2)
    unfold accuracy_reporter.runUpdates at h ⊢
    rw [List.foldl_cons]
    constructor
    · rw [h.1, List.map_cons, List.sum_cons]
      show r.right_count + maskedMatchSum c.1 c.2.1 c.2.2 + _ = _
      ring
    · rw [h.2, List.map_cons, List.sum_cons]
      show r.instance_count + c.2.2.sum + _ = _
      ring

/-- C7 counterexample: one update with `pred = [0]`, `label = [0]`,
`mask = [2]`.  The code's numerator is mask-WEIGHTED
(`((pred == label) * mask).sum()`), giving `acc = 2/2 = 1`, while the
claim's "count of positions where pred == label and mask is nonzero
divided by the cumulative sum of mask" gives `1/2`. -/
theorem c7_counterexample :
    (accuracy_reporter.report
      (accuracy_reporter.update accuracy_reporter.init [0] [0] [2])).2 =
      1 ∧
    (claimedMatchedCount [0] [0] [2] : ℚ) / ([(2 : ℚ)] : List ℚ).sum =
      1 / 2 ∧
    (1 : ℚ) ≠ 1 / 2 := by
  refine ⟨?_, ?_, by norm_num⟩
  · norm_num [accuracy_reporter.report, accuracy_reporter.update,
      accuracy_reporter.init, maskedMatchSum]
  · norm_num [claimedMatchedCount]

/-- C7 amended: `report()` returns `acc` equal to the cumulative
mask-weighted match sum over the cumulative mask sum — equal to the
claimed count of matched masked-in positions when the mask is binary
(0/1), as the program's masks are; the returned `f1`, `prec`, `rec` are
always exactly 0; `acc = 0` when the total mask is zero (no
division-by-zero), and `acc = 1` when every masked position matches. -/
theorem c7_accuracy_reporter (calls : List (List ℤ × List ℤ × List ℚ))
    (hbin : ∀ c ∈ calls, ∀ m ∈ c.2.2, m = 0 ∨ m = 1) :
    (accuracy_reporter.report
        (accuracy_reporter.runUpdates accuracy_reporter.init calls)).2 =
      (calls.map fun c => (claimedMatchedCount c.1 c.2.1 c.2.2 : ℚ)).sum /
        (calls.map fun c => c.2.2.sum).sum ∧
    (accuracy_reporter.report
        (accuracy_reporter.runUpdates accuracy_reporter.init calls)).1 =
      ((accuracy_reporter.report
        (accuracy_reporter.runUpdates accuracy_reporter.init calls)).2,
        0, 0, 0) ∧
    ((calls.map fun c => c.2.2.sum).sum = 0 →
      (accuracy_reporter.report
        (accuracy_reporter.runUpdates accuracy_reporter.init calls)).2 =
        0) ∧
    ((∀ c ∈ calls, ∀ t ∈ (c.1.zip c.2.1).zip c.2.2,
        t.2 ≠ 0 → t.1.1 = t.1.2) →
      (∀ c ∈ calls, c.1.length = c.2.1.length ∧
        c.2.1.length = c.2.2.length) →
      (calls.map fun c => c.2.2.sum).sum ≠ 0 →
      (accuracy_reporter.report
        (accuracy_reporter.runUpdates accuracy_reporter.init calls)).2 =
        1) := by
  obtain ⟨hr, hi⟩ := accuracy_runUpdates_counts calls accuracy_reporter.init
  have hr0 : (accuracy_reporter.runUpdates accuracy_reporter.init
      calls).right_count =
      (calls.map fun c => maskedMatchSum c.1 c.2.1 c.2.2).sum := by
    rw [hr]
    show (0 : ℚ) + _ = _
    ring
  have hi0 : (accuracy_reporter.runUpdates accuracy_reporter.init
      calls).instance_count = (calls.map fun c => c.2.2.sum).sum := by
    rw [hi]
    show (0 : ℚ) + _ = _
    ring
  have hnum : (accuracy_reporter.runUpdates accuracy_reporter.init
      calls).right_count =
      (calls.map fun c => (claimedMatchedCount c.1 c.2.1 c.2.2 : ℚ)).sum := by
    rw [hr0]
    congr 1
    apply List.map_congr_left
    intro c hc
    exact maskedMatchSum_eq_claimedCount c.1 c.2.1 c.2.2 (hbin c hc)
  have hmain : (accuracy_reporter.report
      (accuracy_reporter.runUpdates accuracy_reporter.init calls)).2 =
      (calls.map fun c => (claimedMatchedCount c.1 c.2.1 c.2.2 : ℚ)).sum /
        (calls.map fun c => c.2.2.sum).sum := by
    unfold accuracy_reporter.report
    by_cases hz : (accuracy_reporter.runUpdates accuracy_reporter.init
        calls).instance_count = 0
    · rw [if_neg (not_not_intro hz)]
      rw [← hi0, hz, div_zero]
    · rw [if_pos hz, hnum, hi0]
  refine ⟨hmain, rfl, ?_, ?_⟩
  · intro hD
    rw [hmain, hD, div_zero]
  · intro hmatch hlen hD
    have hND : (calls.map fun c =>
        (claimedMatchedCount c.1 c.2.1 c.2.2 : ℚ)).sum =
        (calls.map fun c => c.2.2.sum).sum := by
      congr 1
      apply List.map_congr_left
      intro c hc
      exact claimedCount_eq_maskSum c.1 c.2.1 c.2.2 (hbin c hc)
        (hmatch c hc) (hlen c hc).1 (hlen c hc).2
    rw [hmain, hND, div_self hD]

/-- C7 amended witness: a single update with a matching masked
position. -/
theorem c7_accuracy_reporter_witness :
    (accuracy_reporter.report (accuracy_reporter.runUpdates
        accuracy_reporter.init [([0], [0], [1])])).2 =
      (([([0], [0], [1])] : List (List ℤ × List ℤ × List ℚ)).map
        (fun c => (claimedMatchedCount c.1 c.2.1 c.2.2 : ℚ))).sum /
      (([([0], [0], [1])] : List (List ℤ × List ℤ × List ℚ)).map
        (fun c => c.2.2.sum)).sum ∧
    (accuracy_reporter.report (accuracy_reporter.runUpdates
        accuracy_reporter.init [([0], [0], [1])])).1 =
      ((accuracy_reporter.report (accuracy_reporter.runUpdates
        accuracy_reporter.init [([0], [0], [1])])).2, 0, 0, 0) := by
  have h := c7_accuracy_reporter [([0], [0], [1])] (by
    intro c hc m hm
    simp only [List.mem_singleton] at hc
    subst hc
    simp only [List.mem_singleton] at hm
    subst hm
    right
    rfl)
  exact ⟨h.1, h.2.1⟩

/-- C4 (intended behavior of `f1_reporter`; the shipped line 275 reads
`self.prec.append(prec))`, an unbalanced parenthesis that is a Python
`SyntaxError`, so the class as shipped cannot run at all — the embedding
models the evident intent `self.prec.append(prec)`): `update` OVERWRITES
the stored masked-in subsets with the current call's and accumulates the
accuracy counts cumulatively, without touching the history lists;
`report` computes micro precision/recall/F1 from the most recent update's
masked subsets only, appends exactly one entry to each history list, and
returns the cumulative accuracy, the arithmetic means of all history
entries so far, and the F1 history list. -/
theorem c4_f1_reporter (r : F1Reporter) (pred label : List ℤ)
    (mask : List ℚ) :
    (f1_reporter.update r pred label mask).pred =
      some (filterMask pred mask) ∧
    (f1_reporter.update r pred label mask).label =
      some (filterMask label mask) ∧
    (f1_reporter.update r pred label mask).right_count =
      r.right_count + maskedMatchSum label pred mask ∧
    (f1_reporter.update r pred label mask).instance_count =
      r.instance_count + mask.sum ∧
    (f1_reporter.update r pred label mask).f1 = r.f1 ∧
    (f1_reporter.update r pred label mask).prec = r.prec ∧
    (f1_reporter.update r pred label mask).recs = r.recs ∧
    f1_reporter.report (f1_reporter.update r pred label mask) =
      .ok ((((if r.instance_count + mask.sum ≠ 0 then
            (r.right_count + maskedMatchSum label pred mask) /
              (r.instance_count + mask.sum)
          else 0),
          listMean (r.f1 ++
            [microAvg (filterMask label mask) (filterMask pred mask)]),
          listMean (r.prec ++
            [microAvg (filterMask label mask) (filterMask pred mask)]),
          listMean (r.recs ++
            [microAvg (filterMask label mask) (filterMask pred mask)])),
        r.f1 ++ [microAvg (filterMask label mask) (filterMask pred mask)]),
        { f1_reporter.update r pred label mask with
          f1 := r.f1 ++
            [microAvg (filterMask label mask) (filterMask pred mask)],
          prec := r.prec ++
            [microAvg (filterMask label mask) (filterMask pred mask)],
          recs := r.recs ++
            [microAvg (filterMask label mask) (filterMask pred mask)] }) :=
  ⟨rfl, rfl, rfl, rfl, rfl, rfl, rfl, rfl⟩

/-- C4 witness: a concrete update on a fresh reporter. -/
theorem c4_f1_reporter_witness :
    (f1_reporter.update f1_reporter.init [0] [0] [1]).pred =
      some (filterMask [0] [1]) ∧
    (f1_reporter.update f1_reporter.init [0] [0] [1]).label =
      some (filterMask [0] [1]) ∧
    (f1_reporter.update f1_reporter.init [0] [0] [1]).f1 =
      f1_reporter.init.f1 :=
  ⟨(c4_f1_reporter f1_reporter.init [0] [0] [1]).1,
   (c4_f1_reporter f1_reporter.init [0] [0] [1]).2.1,
   (c4_f1_reporter f1_reporter.init [0] [0] [1]).2.2.2.2.1⟩

end VSL
